import Mathlib

/-!
# Verification of the urlMap key-value store core

Shallow embedding of the Go sources `src/key.go` and `src/store.go`
(URL-shortener: key generation, primary `URLStore`, replica `ProxyStore`),
with theorems settling the specification claims.

Modelling conventions:
* Go maps (`map[string]string`) are association lists (`GoMap`) with the
  Go assignment semantics `mapAssign` (replace the existing binding, else
  append); `mapLookup` is map indexing with the comma-ok idiom.
* Functions that can panic (out-of-range slice index, nil pointer
  dereference) or diverge return `Option`: `none` means the call does not
  return normally.
* The buffered save channel is modelled by a `Bool` (`hasSave`, whether
  the channel is non-nil) and the list of enqueued records (`saveQueue`).
* The mutexes guard the map for data races only; in this sequential
  embedding each operation is an atomic step, so they have no residue.
-/

deriving instance DecidableEq for Except

/-- Association-list model of Go's `map[string]string`. -/
abbrev GoMap := List (String × String)

/-- Map indexing `m[k]` with the comma-ok idiom: the value at `k`, if present. -/
def mapLookup (m : GoMap) (k : String) : Option String :=
  match m with
  | [] => none
  | (k', v) :: rest => if k' = k then some v else mapLookup rest k

/-- Map assignment `m[k] = v`: replace the binding of `k` if present, else append. -/
def mapAssign (m : GoMap) (k v : String) : GoMap :=
  match m with
  | [] => [(k, v)]
  | (k', v') :: rest => if k' = k then (k, v) :: rest else (k', v') :: mapAssign rest k v

/-- `var keyChar = []byte("0123456789…")` from `key.go`: the 62-symbol alphabet,
digits then uppercase then lowercase. -/
def keyChar : List Char :=
  "0123456789ABCDEFGHIJKLMNOPQRSTUVWXYZabcdefghijklmnopqrstuvwxyz".toList

/-- Go slice write `s[i] = c`: in bounds (`0 ≤ i < len s`) it updates the slice,
out of bounds it panics (`none`). The index is an `Int` because the Go loop
counter `i` can go negative. -/
def sliceSet (s : List Char) (i : Int) (c : Char) : Option (List Char) :=
  if 0 ≤ i ∧ i < (s.length : Int) then some (s.set i.toNat c) else none

/-- The `for n > 0 && i >= 0` loop of `genKey` in `key.go`.  State: remaining
value `n`, byte slice `s`, index `i`.  One iteration does `i--`,
`j := n % l`, `n = (n - j) / l`, `s[i] = keyChar[j]`.  `fuel` bounds the
number of iterations; `none` means the loop panicked (the slice write was out
of range, or the alphabet index was) or did not finish within `fuel` steps
(with fuel > n the loop always exits earlier, since `n` strictly decreases). -/
def genKeyLoop : Nat → Nat → List Char → Int → Option (List Char × Int)
  | 0, _, _, _ => none
  | fuel + 1, n, s, i =>
    if 0 < n ∧ 0 ≤ i then
      let i' := i - 1
      let j := n % keyChar.length
      let n' := (n - j) / keyChar.length
      match keyChar[j]? with
      | none => none
      | some c =>
        match sliceSet s i' c with
        | none => none
        | some s' => genKeyLoop fuel n' s' i'
    else
      some (s, i)

/-- `genKey` from `key.go`.  `genKey 0` returns `string(keyChar[0])`;
otherwise it allocates `s := make([]byte, 0, n)` — a slice of **length 0**
(capacity `n`) — sets `i := len(s) = 0`, runs the encoding loop, and returns
`string(s[i:])`.  `none` models a panic (the loop's first write `s[i]` with
`i = -1` is out of range for the length-0 slice). -/
def genKey (n : Nat) : Option String :=
  if n = 0 then
    (keyChar[0]?).map (fun c => String.mk [c])
  else
    match genKeyLoop (n + 1) n [] 0 with
    | none => none
    | some (s, i) =>
      if 0 ≤ i ∧ i ≤ (s.length : Int) then some (String.mk (s.drop i.toNat)) else none

/-- `type record struct { Key, URL string }` from `store.go`. -/
structure record where
  Key : String
  URL : String
  deriving DecidableEq

/-- `URLStore` from `store.go`: the map `urls`, and the buffered save channel
`save chan record` modelled as its nil-ness (`hasSave`) plus the list of
records currently enqueued (`saveQueue`).  The `sync.RWMutex` serialises the
operations; each operation below is one such atomic step. -/
structure URLStore where
  urls : GoMap
  hasSave : Bool
  saveQueue : List record
  deriving DecidableEq

/-- `URLStore.Get`: under the read lock, `if u, ok := s.urls[*key]; ok`
write `u` through the output pointer and return nil, else return
`errors.New("key not found")`.  The `Except` value carries the written
output (`ok`) or the returned error (`error`). -/
def URLStore.Get (s : URLStore) (key : String) : Except String String :=
  match mapLookup s.urls key with
  | some u => Except.ok u
  | none => Except.error "key not found"

/-- `URLStore.Set`: under the write lock, reject if `*shortURL` is already
present (`errors.New("shortURL already exists")`), else install
`s.urls[*shortURL] = *longURL` and return nil (the updated store). -/
def URLStore.Set (s : URLStore) (shortURL longURL : String) : Except String URLStore :=
  if (mapLookup s.urls shortURL).isSome then
    Except.error "shortURL already exists"
  else
    Except.ok { s with urls := mapAssign s.urls shortURL longURL }

/-- `URLStore.Count`: `len(s.urls)` under the read lock. -/
def URLStore.Count (s : URLStore) : Nat :=
  s.urls.length

/-- `URLStore.All`: under the read lock, allocate a fresh map
`make(map[string]string, len(s.urls))` and copy every entry into it with
`urls[k] = v`; the returned map shares no storage with `s.urls`. -/
def URLStore.All (s : URLStore) : GoMap :=
  s.urls.foldl (fun acc p => mapAssign acc p.1 p.2) []

/-- A `s.Set(k, v)` call whose error result is discarded (as in `load` and in
`ProxyStore`): the store is updated on success and untouched on failure. -/
def setIgnore (s : URLStore) (k v : String) : URLStore :=
  match s.Set k v with
  | Except.ok s' => s'
  | Except.error _ => s

/-- The `for { … }` loop of `URLStore.Put` in `store.go`.  One iteration:
`*key = genKey(s.Count())` (a panic there aborts the call), then
`s.Set(key, url)`; on success `break` — returning the key **without touching
the save channel** — and on failure (`shortURL already exists`) send
`record{*key, *url}` on `s.save` when it is non-nil and loop again.  `fuel`
bounds the iterations; `none` means the call does not return normally
(a genKey panic, or no exit within `fuel` iterations). -/
def putLoop : Nat → URLStore → String → Option (String × URLStore)
  | 0, _, _ => none
  | fuel + 1, s, url =>
    match genKey s.Count with
    | none => none
    | some key =>
      match s.Set key url with
      | Except.ok s' => some (key, s')
      | Except.error _ =>
        let s2 := if s.hasSave then { s with saveQueue := s.saveQueue ++ [⟨key, url⟩] } else s
        putLoop fuel s2 url

/-- `URLStore.Put`: run the retry loop.  Two units of fuel are enough to be
faithful: an iteration recurses only after a collision, and the retry then
calls `genKey` on the same, necessarily nonzero, count — which panics. -/
def URLStore.Put (s : URLStore) (url : String) : Option (String × URLStore) :=
  putLoop 2 s url

/-- How a decode of the on-disk JSON log ends: clean end-of-stream (`io.EOF`)
or a malformed / truncated final record. -/
inductive LogTail where
  | eof : LogTail
  | malformed : LogTail
  deriving DecidableEq

/-- A log file as the decoder sees it: the well-formed records in order,
then how the stream ends. -/
structure LogFile where
  records : List record
  tail : LogTail
  deriving DecidableEq

/-- `URLStore.load`: `os.Open` failure (the `none` file) is logged and
returned, leaving the store as it was.  Otherwise decode records one at a
time, calling `s.Set(&r.Key, &r.URL)` for each (its error discarded), until
the decoder errors; `io.EOF` yields a nil return, any other decode error is
logged and returned — in both cases the previously decoded records stay. -/
def URLStore.load (s : URLStore) (file : Option LogFile) : URLStore × Option String :=
  match file with
  | none => (s, some "open error")
  | some f =>
    let s' := f.records.foldl (fun st r => setIgnore st r.Key r.URL) s
    match f.tail with
    | LogTail.eof => (s', none)
    | LogTail.malformed => (s', some "decode error")

/-- `NewURLStore`: with an empty filename (`none`) the store gets no save
channel and no load.  With a filename, the save channel is created, `load`
runs — its error is only logged, never propagated, so construction always
returns a store — and the `saveLoop` goroutine starts.  The file argument is
what opening that filename yields (`none` = unopenable). -/
def NewURLStore (file : Option (Option LogFile)) : URLStore :=
  match file with
  | none => { urls := [], hasSave := false, saveQueue := [] }
  | some f =>
    let s0 : URLStore := { urls := [], hasSave := true, saveQueue := [] }
    (s0.load f).1

/-- `ProxyStore` from `store.go`: a cache `URLStore` and the `*rpc.Client`,
`none` when `rpc.DialHTTP` failed and the field holds nil. -/
structure ProxyStore where
  urls : URLStore
  client : Option Unit
  deriving DecidableEq

/-- `NewProxyStore`: a dial error is only logged; the function always
returns `&ProxyStore{urls: NewURLStore(""), client: client}`, with a nil
client after a failed dial. -/
def NewProxyStore (dial : Option Unit) : ProxyStore :=
  { urls := NewURLStore none, client := dial }

/-- `ProxyStore.Get`: first try the local cache; on a hit return it with no
remote call.  On a miss issue `s.client.Call("Store.Get", key, url)` — a nil
client makes that dereference fault (`none`) — propagating a remote error
as-is, and on remote success `s.urls.Set(key, url)` (error discarded) before
returning nil.  The remote is the oracle `remoteGet`; the `Nat` in the
result counts the remote calls made. -/
def ProxyStore.Get (p : ProxyStore) (remoteGet : String → Except String String)
    (key : String) : Option (Except String String × ProxyStore × Nat) :=
  match p.urls.Get key with
  | Except.ok url => some (Except.ok url, p, 0)
  | Except.error _ =>
    match p.client with
    | none => none
    | some _ =>
      match remoteGet key with
      | Except.error e => some (Except.error e, p, 1)
      | Except.ok url => some (Except.ok url, { p with urls := setIgnore p.urls key url }, 1)

/-- `ProxyStore.Put`: always issue `s.client.Call("Store.Put", url, key)`
(a nil client faults), propagate a remote error as-is, and on remote
success `s.urls.Set(key, url)` (error discarded) before returning nil.
Same conventions as `ProxyStore.Get`. -/
def ProxyStore.Put (p : ProxyStore) (remotePut : String → Except String String)
    (url : String) : Option (Except String String × ProxyStore × Nat) :=
  match p.client with
  | none => none
  | some _ =>
    match remotePut url with
    | Except.error e => some (Except.error e, p, 1)
    | Except.ok key => some (Except.ok key, { p with urls := setIgnore p.urls key url }, 1)

/-! ## Map lemmas -/

/-- After `m[k] = v`, indexing at `k` yields `v`. -/
theorem mapLookup_mapAssign_self (m : GoMap) (k v : String) :
    mapLookup (mapAssign m k v) k = some v := by
  induction m with
  | nil => simp [mapAssign, mapLookup]
  | cons p rest ih =>
    by_cases h : p.1 = k
    · simp [mapAssign, mapLookup, h]
    · simp [mapAssign, mapLookup, h, ih]

/-- `m[k'] = v` leaves indexing at any other key unchanged. -/
theorem mapLookup_mapAssign_ne (m : GoMap) (k k' v : String) (h : k ≠ k') :
    mapLookup (mapAssign m k' v) k = mapLookup m k := by
  have h' : ¬ (k' = k) := fun hh => h hh.symm
  induction m with
  | nil => simp [mapAssign, mapLookup, h']
  | cons p rest ih =>
    by_cases hp : p.1 = k'
    · subst hp
      simp [mapAssign, mapLookup, h']
    · simp [mapAssign, mapLookup, hp, ih]

/-- Assigning an absent key appends the new binding. -/
theorem mapAssign_absent (m : GoMap) (k v : String) (h : mapLookup m k = none) :
    mapAssign m k v = m ++ [(k, v)] := by
  induction m with
  | nil => simp [mapAssign]
  | cons p rest ih =>
    by_cases hp : p.1 = k
    · simp [mapLookup, hp] at h
    · simp [mapLookup, hp] at h
      simp [mapAssign, hp, ih h]

/-- Indexing skips over a prefix that lacks the key. -/
theorem mapLookup_append_of_none (m1 m2 : GoMap) (k : String)
    (h : mapLookup m1 k = none) : mapLookup (m1 ++ m2) k = mapLookup m2 k := by
  induction m1 with
  | nil => simp
  | cons p rest ih =>
    by_cases hp : p.1 = k
    · simp [mapLookup, hp] at h
    · simp [mapLookup, hp] at h ⊢
      exact ih h

/-! ## `Set` lemmas -/

/-- A successful `Set` certifies the key was absent and installs exactly it. -/
theorem Set_ok (s : URLStore) (k v : String) (s2 : URLStore)
    (h : URLStore.Set s k v = Except.ok s2) :
    mapLookup s.urls k = none ∧ s2 = { s with urls := mapAssign s.urls k v } := by
  unfold URLStore.Set at h
  by_cases hp : (mapLookup s.urls k).isSome
  · rw [if_pos hp] at h
    exact absurd h (by simp)
  · rw [if_neg hp] at h
    refine ⟨Option.not_isSome_iff_eq_none.mp hp, ?_⟩
    exact (Except.ok.injEq _ _ |>.mp h).symm

/-- A failed `Set` certifies the key was present, with the fixed error text. -/
theorem Set_error (s : URLStore) (k v : String) (e : String)
    (h : URLStore.Set s k v = Except.error e) :
    (mapLookup s.urls k).isSome ∧ e = "shortURL already exists" := by
  unfold URLStore.Set at h
  by_cases hp : (mapLookup s.urls k).isSome
  · rw [if_pos hp] at h
    exact ⟨hp, ((Except.error.injEq _ _).mp h).symm⟩
  · rw [if_neg hp] at h
    exact absurd h (by simp)

/-- `setIgnore` on an absent key behaves as the assignment. -/
theorem setIgnore_absent (s : URLStore) (k v : String)
    (h : mapLookup s.urls k = none) :
    setIgnore s k v = { s with urls := mapAssign s.urls k v } := by
  unfold setIgnore URLStore.Set
  rw [if_neg (by simp [h])]

/-- For every `fuel`, a `putLoop` that returns did so from a successful
`Set`, so the returned key indexes the stored value in the new store. -/
theorem putLoop_roundtrip (fuel : Nat) :
    ∀ (s : URLStore) (url k : String) (s' : URLStore),
      putLoop fuel s url = some (k, s') → URLStore.Get s' k = Except.ok url := by
  induction fuel with
  | zero =>
    intro s url k s' h
    simp [putLoop] at h
  | succ f ih =>
    intro s url k s' h
    unfold putLoop at h
    split at h
    next => exact absurd h (by simp)
    next key hg =>
      split at h
      next s2 hs =>
        simp only [Option.some.injEq, Prod.mk.injEq] at h
        obtain ⟨hk, hs'⟩ := h
        obtain ⟨-, hset⟩ := Set_ok s key url s2 hs
        subst hk
        subst hs'
        subst hset
        unfold URLStore.Get
        rw [mapLookup_mapAssign_self]
      next e hs =>
        exact ih _ url k s' h

/-! ## Claims -/

/-- C1: the spec claims `genKey n` encodes every `n ≥ 0` in the 62-symbol
alphabet, most-significant symbol first.  The code only honours `genKey 0 =
"0"`; for every positive `n` the loop's first write `s[i]` runs with
`i = -1` on the length-0 slice `make([]byte, 0, n)` and panics, modelled as
`none` — e.g. at the failing inputs `n = 1` and `n = 62`. -/
theorem genKey_panics_on_positive :
    genKey 0 = some "0" ∧ genKey 1 = none ∧ genKey 62 = none := by
  decide

/-- C2: whenever `Put` returns a key `k` with no error — which happens
exactly when the install succeeded — `Get k` on the resulting store returns
the value just stored. -/
theorem Put_Get_roundtrip (s : URLStore) (url k : String) (s' : URLStore)
    (h : URLStore.Put s url = some (k, s')) : URLStore.Get s' k = Except.ok url :=
  putLoop_roundtrip 2 s url k s' h

/-- C2 witness: on the empty store, `Put "http://example.com"` returns key
`"0"` and `Get "0"` then returns `"http://example.com"`. -/
theorem Put_Get_roundtrip_witness :
    URLStore.Put (NewURLStore none) "http://example.com"
      = some ("0", { urls := [("0", "http://example.com")],
                     hasSave := false, saveQueue := [] }) ∧
    URLStore.Get { urls := [("0", "http://example.com")],
                   hasSave := false, saveQueue := [] } "0"
      = Except.ok "http://example.com" :=
  ⟨by decide,
   Put_Get_roundtrip (NewURLStore none) "http://example.com" "0"
     { urls := [("0", "http://example.com")], hasSave := false, saveQueue := [] }
     (by decide)⟩

/-- C3: the spec claims every committed `Put` enqueues exactly one record on
the save queue before returning.  In the code the channel send sits in the
collision branch, after `break` has already skipped it on success: at the
failing input — an empty store whose save channel is non-nil,
`Put "http://example.com"` — the `Put` commits and returns key `"0"` with
the save queue still empty. -/
theorem Put_enqueues_no_record :
    URLStore.Put { urls := [], hasSave := true, saveQueue := [] } "http://example.com"
      = some ("0", { urls := [("0", "http://example.com")],
                     hasSave := true, saveQueue := [] }) := by
  decide

/-- `Get` succeeds exactly on the keys the map binds, with the bound value. -/
theorem Get_ok_iff (s : URLStore) (k u : String) :
    URLStore.Get s k = Except.ok u ↔ mapLookup s.urls k = some u := by
  unfold URLStore.Get
  cases h : mapLookup s.urls k <;> simp

/-- A `Get` that errors certifies the key is absent. -/
theorem Get_error_absent (s : URLStore) (k e : String)
    (h : URLStore.Get s k = Except.error e) : mapLookup s.urls k = none := by
  unfold URLStore.Get at h
  cases hm : mapLookup s.urls k with
  | none => rfl
  | some u => rw [hm] at h; exact absurd h (by simp)

/-- A binding the store already holds survives any `putLoop` that returns:
the loop only installs keys that were absent at the install. -/
theorem putLoop_preserves (fuel : Nat) :
    ∀ (s : URLStore) (url k2 : String) (s2 : URLStore) (k u : String),
      putLoop fuel s url = some (k2, s2) → mapLookup s.urls k = some u →
      mapLookup s2.urls k = some u := by
  induction fuel with
  | zero =>
    intro s url k2 s2 k u h _
    simp [putLoop] at h
  | succ f ih =>
    intro s url k2 s2 k u h hk
    unfold putLoop at h
    split at h
    next => exact absurd h (by simp)
    next key hg =>
      split at h
      next s3 hs =>
        simp only [Option.some.injEq, Prod.mk.injEq] at h
        obtain ⟨hk2, hs2⟩ := h
        obtain ⟨habs, hset⟩ := Set_ok s key url s3 hs
        subst hs2
        subst hset
        have hne : k ≠ key := by
          intro hcontra
          subst hcontra
          rw [hk] at habs
          exact absurd habs (by simp)
        rw [mapLookup_mapAssign_ne _ _ _ _ hne]
        exact hk
      next e hs =>
        by_cases hsv : s.hasSave = true
        · rw [if_pos hsv] at h
          exact ih _ url k2 s2 k u h hk
        · rw [if_neg hsv] at h
          exact ih _ url k2 s2 k u h hk

/-- C4: a key the store already binds is immutable: `Set` on it is rejected
with the `AlreadyExists` error (the map untouched — the error branch installs
nothing), and every later `Set` or `Put` that succeeds leaves `Get` on that
key returning the original value. -/
theorem Set_rejects_overwrite (s : URLStore) (k u : String)
    (h : URLStore.Get s k = Except.ok u) :
    (∀ v, URLStore.Set s k v = Except.error "shortURL already exists") ∧
    (∀ k' v' s2, URLStore.Set s k' v' = Except.ok s2 →
       URLStore.Get s2 k = Except.ok u) ∧
    (∀ url k2 s2, URLStore.Put s url = some (k2, s2) →
       URLStore.Get s2 k = Except.ok u) := by
  have hm : mapLookup s.urls k = some u := (Get_ok_iff s k u).mp h
  refine ⟨?_, ?_, ?_⟩
  · intro v
    unfold URLStore.Set
    rw [if_pos (by simp [hm])]
  · intro k' v' s2 hset
    obtain ⟨habs, hs2⟩ := Set_ok s k' v' s2 hset
    subst hs2
    have hne : k ≠ k' := by
      intro hcontra
      subst hcontra
      rw [hm] at habs
      exact absurd habs (by simp)
    rw [Get_ok_iff]
    rw [mapLookup_mapAssign_ne _ _ _ _ hne]
    exact hm
  · intro url k2 s2 hput
    rw [Get_ok_iff]
    exact putLoop_preserves 2 s url k2 s2 k u hput hm

/-- C4 witness: with `"0" ↦ "http://a.com"` installed, `Set "0"
"http://b.com"` is rejected with the fixed error. -/
theorem Set_rejects_overwrite_witness :
    URLStore.Set { urls := [("0", "http://a.com")], hasSave := false, saveQueue := [] }
        "0" "http://b.com"
      = Except.error "shortURL already exists" :=
  (Set_rejects_overwrite
      { urls := [("0", "http://a.com")], hasSave := false, saveQueue := [] }
      "0" "http://a.com" (by decide)).1 "http://b.com"

/-- C8: `Get` on a key the map binds writes the bound value through the
output pointer and returns nil; on an absent key it returns the typed error
`"key not found"`, never a silent default.  It takes only the read lock and
never mutates the store. -/
theorem Get_typed_not_found (s : URLStore) (k : String) :
    (∀ u, mapLookup s.urls k = some u → URLStore.Get s k = Except.ok u) ∧
    (mapLookup s.urls k = none → URLStore.Get s k = Except.error "key not found") := by
  constructor
  · intro u h
    unfold URLStore.Get
    rw [h]
  · intro h
    unfold URLStore.Get
    rw [h]

/-- C8 witness: on `"0" ↦ "http://a.com"`, `Get "0"` succeeds and `Get "1"`
returns the `"key not found"` error. -/
theorem Get_typed_not_found_witness :
    URLStore.Get { urls := [("0", "http://a.com")], hasSave := false, saveQueue := [] } "0"
      = Except.ok "http://a.com" ∧
    URLStore.Get { urls := [("0", "http://a.com")], hasSave := false, saveQueue := [] } "1"
      = Except.error "key not found" :=
  ⟨(Get_typed_not_found
      { urls := [("0", "http://a.com")], hasSave := false, saveQueue := [] } "0").1
      "http://a.com" (by decide),
   (Get_typed_not_found
      { urls := [("0", "http://a.com")], hasSave := false, saveQueue := [] } "1").2
      (by decide)⟩

/-- Copying a duplicate-free association list into a fresh accumulator by
repeated assignment appends it verbatim. -/
theorem copyFold (m : GoMap) :
    ∀ acc : GoMap, (m.map Prod.fst).Nodup →
      (∀ p ∈ m, mapLookup acc p.1 = none) →
      m.foldl (fun a p => mapAssign a p.1 p.2) acc = acc ++ m := by
  induction m with
  | nil =>
    intro acc _ _
    simp
  | cons p rest ih =>
    intro acc hnd habs
    rw [List.map_cons, List.nodup_cons] at hnd
    simp only [List.foldl_cons]
    rw [mapAssign_absent acc p.1 p.2 (habs p (by simp))]
    rw [ih (acc ++ [(p.1, p.2)]) hnd.2 ?_]
    · simp
    · intro q hq
      rw [mapLookup_append_of_none _ _ _ (habs q (by simp [hq]))]
      have hne : ¬ (p.1 = q.1) := by
        intro hcontra
        exact hnd.1 (hcontra ▸ List.mem_map_of_mem Prod.fst hq)
      simp [mapLookup, hne]

/-- C9: `All` builds its result in a freshly allocated map (the fold starts
from the empty map, so the copy shares no storage with `s.urls` and mutating
it cannot touch the store); on a store whose map is duplicate-free — as every
Go map is — the copy equals the store's mapping exactly. -/
theorem All_fresh_copy (s : URLStore) (h : (s.urls.map Prod.fst).Nodup) :
    URLStore.All s = s.urls := by
  unfold URLStore.All
  rw [copyFold s.urls [] h (by intro p _; rfl)]
  simp

/-- C9 witness: the copy of a two-entry store equals its map. -/
theorem All_fresh_copy_witness :
    URLStore.All { urls := [("0", "http://a.com"), ("1", "http://b.com")],
                   hasSave := false, saveQueue := [] }
      = [("0", "http://a.com"), ("1", "http://b.com")] :=
  All_fresh_copy
    { urls := [("0", "http://a.com"), ("1", "http://b.com")],
      hasSave := false, saveQueue := [] }
    (by decide)

/-- Replaying records whose keys are fresh and duplicate-free appends them
all: each `Set` during replay succeeds. -/
theorem loadFold (recs : List record) :
    ∀ s : URLStore, (recs.map record.Key).Nodup →
      (∀ r ∈ recs, mapLookup s.urls r.Key = none) →
      recs.foldl (fun st r => setIgnore st r.Key r.URL) s
        = { s with urls := s.urls ++ recs.map (fun r => (r.Key, r.URL)) } := by
  induction recs with
  | nil =>
    intro s _ _
    simp
  | cons r rest ih =>
    intro s hnd habs
    rw [List.map_cons, List.nodup_cons] at hnd
    simp only [List.foldl_cons]
    rw [setIgnore_absent s r.Key r.URL (habs r (by simp))]
    rw [mapAssign_absent s.urls r.Key r.URL (habs r (by simp))]
    rw [ih _ hnd.2 ?_]
    · simp
    · intro q hq
      show mapLookup (s.urls ++ [(r.Key, r.URL)]) q.Key = none
      rw [mapLookup_append_of_none _ _ _ (habs q (by simp [hq]))]
      have hne : ¬ (r.Key = q.Key) := by
        intro hcontra
        exact hnd.1 (hcontra ▸ List.mem_map_of_mem record.Key hq)
      simp [mapLookup, hne]

/-- C5: constructing a store from a log of `N` well-formed records followed
by a malformed or truncated final record retains exactly those `N` entries —
the decode error is logged, not fatal, since `NewURLStore` ignores `load`'s
error and returns the store regardless; an unopenable log file likewise
yields the empty store with no fatal error. -/
theorem load_truncated_tail (recs : List record)
    (h : (recs.map record.Key).Nodup) :
    NewURLStore (some (some { records := recs, tail := LogTail.malformed }))
      = { urls := recs.map (fun r => (r.Key, r.URL)),
          hasSave := true, saveQueue := [] } ∧
    NewURLStore (some none) = { urls := [], hasSave := true, saveQueue := [] } := by
  constructor
  · show (URLStore.load { urls := [], hasSave := true, saveQueue := [] }
      (some { records := recs, tail := LogTail.malformed })).1 = _
    unfold URLStore.load
    simp only
    rw [loadFold recs { urls := [], hasSave := true, saveQueue := [] } h
      (by intro r _; rfl)]
    rfl
  · rfl

/-- C5 witness: the log `{"0","http://a.com"}, {"1","http://b.com"}` with a
truncated tail loads exactly its two records. -/
theorem load_truncated_tail_witness :
    NewURLStore (some (some { records := [⟨"0", "http://a.com"⟩, ⟨"1", "http://b.com"⟩],
                              tail := LogTail.malformed }))
      = { urls := [("0", "http://a.com"), ("1", "http://b.com")],
          hasSave := true, saveQueue := [] } ∧
    NewURLStore (some none) = { urls := [], hasSave := true, saveQueue := [] } :=
  load_truncated_tail [⟨"0", "http://a.com"⟩, ⟨"1", "http://b.com"⟩] (by decide)

/-- C6: a `ProxyStore.Get` whose key is in the local cache answers from the
cache with zero remote calls; on a cache miss (with a live client) it makes
exactly one remote call, propagating a remote error as-is, and on remote
success caches the result — so the repeated `Get`, under any remote, is a
cache hit with zero further remote calls. -/
theorem ProxyGet_cache_coherence (p : ProxyStore)
    (remoteGet : String → Except String String) (key : String) :
    (∀ u, URLStore.Get p.urls key = Except.ok u →
        ProxyStore.Get p remoteGet key = some (Except.ok u, p, 0)) ∧
    (URLStore.Get p.urls key = Except.error "key not found" → p.client ≠ none →
      ((∀ e, remoteGet key = Except.error e →
          ProxyStore.Get p remoteGet key = some (Except.error e, p, 1)) ∧
       (∀ u, remoteGet key = Except.ok u →
          ProxyStore.Get p remoteGet key
            = some (Except.ok u, { p with urls := setIgnore p.urls key u }, 1) ∧
          (∀ remoteGet2 : String → Except String String,
            ProxyStore.Get { p with urls := setIgnore p.urls key u } remoteGet2 key
              = some (Except.ok u, { p with urls := setIgnore p.urls key u }, 0))))) := by
  constructor
  · intro u hhit
    unfold ProxyStore.Get
    rw [hhit]
  · intro hmiss hc
    obtain ⟨c, hcl⟩ := Option.ne_none_iff_exists.mp hc
    have habs : mapLookup p.urls.urls key = none := Get_error_absent p.urls key _ hmiss
    constructor
    · intro e hrem
      unfold ProxyStore.Get
      rw [hmiss, ← hcl, hrem]
    · intro u hrem
      have hcached : URLStore.Get (setIgnore p.urls key u) key = Except.ok u := by
        rw [setIgnore_absent p.urls key u habs, Get_ok_iff]
        exact mapLookup_mapAssign_self p.urls.urls key u
      constructor
      · unfold ProxyStore.Get
        rw [hmiss, ← hcl, hrem]
      · intro remoteGet2
        unfold ProxyStore.Get
        rw [hcached]

/-- C6 witness: with an empty cache and a remote holding `"0" ↦
"http://a.com"`, the first `Get "0"` makes one remote call and caches the
answer, and the second `Get "0"` is served locally with zero remote calls. -/
theorem ProxyGet_cache_coherence_witness :
    ProxyStore.Get (NewProxyStore (some ())) (fun _ => Except.ok "http://a.com") "0"
      = some (Except.ok "http://a.com",
              { urls := { urls := [("0", "http://a.com")],
                          hasSave := false, saveQueue := [] },
                client := some () }, 1) ∧
    ProxyStore.Get { urls := { urls := [("0", "http://a.com")],
                               hasSave := false, saveQueue := [] },
                     client := some () }
        (fun _ => Except.error "remote down") "0"
      = some (Except.ok "http://a.com",
              { urls := { urls := [("0", "http://a.com")],
                          hasSave := false, saveQueue := [] },
                client := some () }, 0) := by
  have h := ((ProxyGet_cache_coherence (NewProxyStore (some ()))
      (fun _ => Except.ok "http://a.com") "0").2 (by decide) (by decide)).2
      "http://a.com" rfl
  exact ⟨h.1, h.2 (fun _ => Except.error "remote down")⟩

/-- C7: every `ProxyStore.Put` with a live client makes exactly one remote
call, whatever the cache holds; a remote failure is propagated verbatim with
no local mutation, and a remote success returns the key and caches the
returned pair (the opportunistic `Set`, which installs the pair whenever the
key was not already cached). -/
theorem ProxyPut_forwards (p : ProxyStore)
    (remotePut : String → Except String String) (url : String)
    (hc : p.client ≠ none) :
    (∀ e, remotePut url = Except.error e →
        ProxyStore.Put p remotePut url = some (Except.error e, p, 1)) ∧
    (∀ k, remotePut url = Except.ok k →
        ProxyStore.Put p remotePut url
          = some (Except.ok k, { p with urls := setIgnore p.urls k url }, 1) ∧
        (mapLookup p.urls.urls k = none →
          URLStore.Get (setIgnore p.urls k url) k = Except.ok url)) := by
  obtain ⟨c, hcl⟩ := Option.ne_none_iff_exists.mp hc
  constructor
  · intro e hrem
    unfold ProxyStore.Put
    rw [← hcl, hrem]
  · intro k hrem
    constructor
    · unfold ProxyStore.Put
      rw [← hcl, hrem]
    · intro habs
      rw [setIgnore_absent p.urls k url habs, Get_ok_iff]
      exact mapLookup_mapAssign_self p.urls.urls k url

/-- C7 witness: with key `"0"` already cached, `Put "http://b.com"` still
makes exactly one remote call; the remote answers key `"1"`, which is then
cached. -/
theorem ProxyPut_forwards_witness :
    ProxyStore.Put { urls := { urls := [("0", "http://a.com")],
                               hasSave := false, saveQueue := [] },
                     client := some () }
        (fun _ => Except.ok "1") "http://b.com"
      = some (Except.ok "1",
              { urls := { urls := [("0", "http://a.com"), ("1", "http://b.com")],
                          hasSave := false, saveQueue := [] },
                client := some () }, 1) := by
  have h := ((ProxyPut_forwards
      { urls := { urls := [("0", "http://a.com")], hasSave := false, saveQueue := [] },
        client := some () }
      (fun _ => Except.ok "1") "http://b.com" (by decide)).2 "1" rfl).1
  rw [h]
  decide

/-- C10: `NewProxyStore` cannot report a dial failure: it always returns a
`ProxyStore` (with a fresh, save-less cache), and after a failed dial the
client field is nil, so the first cache-missing `Get` and every `Put`
dereference the nil client and fault (`none`) instead of returning a typed
remote error. -/
theorem NewProxyStore_nil_client :
    (NewProxyStore none).client = none ∧
    (NewProxyStore none).urls = NewURLStore none ∧
    (∀ (remoteGet : String → Except String String) (key : String),
        ProxyStore.Get (NewProxyStore none) remoteGet key = none) ∧
    (∀ (remotePut : String → Except String String) (url : String),
        ProxyStore.Put (NewProxyStore none) remotePut url = none) := by
  refine ⟨rfl, rfl, ?_, ?_⟩
  · intro remoteGet key
    rfl
  · intro remotePut url
    rfl
